import Mathlib

/-!
Verification of the request-admission, caching and analysis-orchestration
subsystem of the ai-lead-gen-pro repository, as a shallow embedding in Lean.

Numbers: JavaScript numeric values are embedded as `Nat`/`Int`/`ℚ` (the code
only manipulates small integers and decimal constants such as 0.5, 1.2, 1.5).
JavaScript `Map` objects and the key space of the in-memory stores are embedded
as insertion-ordered association lists, matching the iteration-order semantics
of `Map`.  `async` functions without shared interleaved state are embedded as
pure functions; fallible operations return `Except`.
-/

set_option maxRecDepth 20000

/-! ## SHA-256 (crypto.createHash used by src/lib/cache.ts generateKey) -/

def m32 : Nat := 4294967296

def add32 (a b : Nat) : Nat := (a + b) % m32

def rotr32 (n x : Nat) : Nat := (x >>> n) ||| ((x <<< (32 - n)) % m32)

def not32 (x : Nat) : Nat := x ^^^ 4294967295

def bsig0 (x : Nat) : Nat := (rotr32 2 x) ^^^ (rotr32 13 x) ^^^ (rotr32 22 x)

def bsig1 (x : Nat) : Nat := (rotr32 6 x) ^^^ (rotr32 11 x) ^^^ (rotr32 25 x)

def ssig0 (x : Nat) : Nat := (rotr32 7 x) ^^^ (rotr32 18 x) ^^^ (x >>> 3)

def ssig1 (x : Nat) : Nat := (rotr32 17 x) ^^^ (rotr32 19 x) ^^^ (x >>> 10)

/-- The 64 SHA-256 round constants (FIPS 180-4), in decimal. -/
def sha256K : List Nat :=
  [1116352408, 1899447441, 3049323471, 3921009573, 961987163, 1508970993,
   2453635748, 2870763221, 3624381080, 310598401, 607225278, 1426881987,
   1925078388, 2162078206, 2614888103, 3248222580, 3835390401, 4022224774,
   264347078, 604807628, 770255983, 1249150122, 1555081692, 1996064986,
   2554220882, 2821834349, 2952996808, 3210313671, 3336571891, 3584528711,
   113926993, 338241895, 666307205, 773529912, 1294757372, 1396182291,
   1695183700, 1986661051, 2177026350, 2456956037, 2730485921, 2820302411,
   3259730800, 3345764771, 3516065817, 3600352804, 4094571909, 275423344,
   430227734, 506948616, 659060556, 883997877, 958139571, 1322822218,
   1537002063, 1747873779, 1955562222, 2024104815, 2227730452, 2361852424,
   2428436474, 2756734187, 3204031479, 3329325298]

/-- The SHA-256 initial hash state (FIPS 180-4), in decimal. -/
def sha256H0 : List Nat :=
  [1779033703, 3144134277, 1013904242, 2773480762,
   1359893119, 2600822924, 528734635, 1541459225]

def sha256Pad (msg : List Nat) : List Nat :=
  let len := msg.length
  let padZeros := (64 - ((len + 9) % 64)) % 64
  msg ++ [128] ++ List.replicate padZeros 0 ++
    (List.range 8).map (fun i => ((8 * len) >>> (8 * (7 - i))) % 256)

def bytesToWords : List Nat → List Nat
  | b0 :: b1 :: b2 :: b3 :: rest =>
      ((((((b0 <<< 8) ||| b1) <<< 8) ||| b2) <<< 8) ||| b3) :: bytesToWords rest
  | _ => []

def scheduleNext (acc : List Nat) : Nat :=
  let L := acc.length
  add32 (add32 (acc.getD (L - 16) 0) (ssig0 (acc.getD (L - 15) 0)))
        (add32 (acc.getD (L - 7) 0) (ssig1 (acc.getD (L - 2) 0)))

def sha256Compress (h : List Nat) (chunk : List Nat) : List Nat :=
  let w := (List.range 48).foldl (fun acc _ => acc ++ [scheduleNext acc]) (bytesToWords chunk)
  let st0 := (h.getD 0 0, h.getD 1 0, h.getD 2 0, h.getD 3 0,
              h.getD 4 0, h.getD 5 0, h.getD 6 0, h.getD 7 0)
  let stN := (List.range 64).foldl (fun st i =>
    match st with
    | (a, b, c, d, e, f, g, hh) =>
      let t1 := add32 (add32 (add32 hh (bsig1 e))
                  (add32 ((e &&& f) ^^^ ((not32 e) &&& g)) (sha256K.getD i 0))) (w.getD i 0)
      let t2 := add32 (bsig0 a) ((a &&& b) ^^^ (a &&& c) ^^^ (b &&& c))
      (add32 t1 t2, a, b, c, add32 d t1, e, f, g)) st0
  match stN with
  | (a, b, c, d, e, f, g, hh) =>
      [add32 (h.getD 0 0) a, add32 (h.getD 1 0) b, add32 (h.getD 2 0) c,
       add32 (h.getD 3 0) d, add32 (h.getD 4 0) e, add32 (h.getD 5 0) f,
       add32 (h.getD 6 0) g, add32 (h.getD 7 0) hh]

def sha256Chunks : Nat → List Nat → List Nat → List Nat
  | 0, _, h => h
  | n + 1, data, h => sha256Chunks n (data.drop 64) (sha256Compress h (data.take 64))

def sha256Words (msg : List Nat) : List Nat :=
  let padded := sha256Pad msg
  sha256Chunks (padded.length / 64) padded sha256H0

def hexDigitList : List Char := "0123456789abcdef".data

def hexChar (n : Nat) : Char := hexDigitList.getD n '0'

def byteToHex (b : Nat) : List Char := [hexChar ((b / 16) % 16), hexChar (b % 16)]

def wordToBytes (w : Nat) : List Nat :=
  [(w >>> 24) % 256, (w >>> 16) % 256, (w >>> 8) % 256, w % 256]

def sha256HexChars (msg : List Nat) : List Char :=
  (((sha256Words msg).map wordToBytes).flatten.map byteToHex).flatten

/-- UTF-8 encoding of one character (Buffer encoding used by node crypto
when hashing a JavaScript string). -/
def utf8Bytes (c : Char) : List Nat :=
  let n := c.toNat
  if n < 128 then [n]
  else if n < 2048 then [192 + n / 64, 128 + n % 64]
  else if n < 65536 then [224 + n / 4096, 128 + (n / 64) % 64, 128 + n % 64]
  else [240 + n / 262144, 128 + (n / 4096) % 64, 128 + (n / 64) % 64, 128 + n % 64]

def strBytes (s : String) : List Nat := (s.data.map utf8Bytes).flatten

def sha256Hex (s : String) : String := String.mk (sha256HexChars (strBytes s))

/-! ## JSON.stringify for the key-parameter objects passed to generateKey

Call sites of `CacheService.generateKey` pass flat objects whose values are
strings or absent (`location` may be `undefined`, which `JSON.stringify`
omits).  `KeyParams` records the properties in object insertion order, which
`JSON.stringify` preserves. -/

structure KeyParams where
  fields : List (String × Option String)
deriving DecidableEq, Repr

def lbrace : String := "\x7b"

def rbrace : String := "\x7d"

/-- JSON string escaping as performed by `JSON.stringify` on BMP input. -/
def jsonEscapeChar (c : Char) : List Char :=
  if c = '"' then ['\\', '"']
  else if c = '\\' then ['\\', '\\']
  else if c = Char.ofNat 8 then ['\\', 'b']
  else if c = Char.ofNat 9 then ['\\', 't']
  else if c = Char.ofNat 10 then ['\\', 'n']
  else if c = Char.ofNat 12 then ['\\', 'f']
  else if c = Char.ofNat 13 then ['\\', 'r']
  else if c.toNat < 32 then ['\\', 'u', '0', '0', hexChar ((c.toNat / 16) % 16), hexChar (c.toNat % 16)]
  else [c]

def jsonQuote (s : String) : String :=
  "\"" ++ String.mk ((s.data.map jsonEscapeChar).flatten) ++ "\""

def jsonStringify (p : KeyParams) : String :=
  lbrace ++
    String.intercalate ","
      (p.fields.filterMap (fun kv => kv.2.map (fun v => jsonQuote kv.1 ++ ":" ++ jsonQuote v))) ++
  rbrace

/-! ## CacheService.generateKey (src/lib/cache.ts)

`generateKey(namespace, data)` returns the string `prefix:namespace:hash`
where `hash` is the first 16 hex characters of the SHA-256 digest of
`JSON.stringify(data)`; the singleton `cache` instance uses prefix `"cache"`. -/

def generateKey (pre ns : String) (data : KeyParams) : String :=
  pre ++ ":" ++ ns ++ ":" ++ String.mk ((sha256HexChars (strBytes (jsonStringify data))).take 16)

def cacheGenerateKey (ns : String) (data : KeyParams) : String :=
  generateKey "cache" ns data

/-! ## Insertion-ordered association maps

The in-memory backends (`MemoryRateLimiter`, `MemoryCache`) and every
JavaScript `Map` in the orchestration code are insertion-ordered maps; this is
their shallow embedding.  `aset` on an existing key keeps the entry at its
original position (the behaviour of `Map.prototype.set`). -/

def alookup {β : Type} (l : List (String × β)) (k : String) : Option β :=
  match l with
  | [] => none
  | (k2, v) :: rest => if k2 = k then some v else alookup rest k

def aset {β : Type} (l : List (String × β)) (k : String) (v : β) : List (String × β) :=
  match l with
  | [] => [(k, v)]
  | (k2, v2) :: rest => if k2 = k then (k, v) :: rest else (k2, v2) :: aset rest k v

def aremove {β : Type} (l : List (String × β)) (k : String) : List (String × β) :=
  match l with
  | [] => []
  | (k2, v2) :: rest => if k2 = k then aremove rest k else (k2, v2) :: aremove rest k

/-! ## MemoryRateLimiter (src/lib/rate-limit/memory-rate-limit.ts)

State: the `counters` map, plus `expiries` recording the seconds of the most
recent `expire` call per key (standing in for the expiry timers; timer firing
is not modelled, no claim depends on it). -/

structure MemStore where
  counters : List (String × Nat)
  expiries : List (String × Nat)
deriving DecidableEq, Repr

def memIncr (s : MemStore) (k : String) : Nat × MemStore :=
  let current := (alookup s.counters k).getD 0
  let v := current + 1
  (v, { s with counters := aset s.counters k v })

/-- `decr` clamps at zero (`Math.max(0, current - 1)`, which is exactly `Nat`
subtraction) and deletes the counter entry when the new value is zero. -/
def memDecr (s : MemStore) (k : String) : Nat × MemStore :=
  let current := (alookup s.counters k).getD 0
  let v := current - 1
  if v = 0 then (v, { s with counters := aremove s.counters k })
  else (v, { s with counters := aset s.counters k v })

/-- `get` returns `value.toString()` or `null`; the caller immediately applies
`parseInt`, so the embedding keeps the numeric value. -/
def memGet (s : MemStore) (k : String) : Option Nat := alookup s.counters k

def memDel (s : MemStore) (k : String) : MemStore :=
  { counters := aremove s.counters k, expiries := aremove s.expiries k }

def memExpire (s : MemStore) (k : String) (seconds : Nat) : MemStore :=
  { s with expiries := aset s.expiries k seconds }

/-! ## Rate limiting (src/lib/rate-limit.ts) -/

def dailyKeyOf (clientId today : String) : String :=
  "rate:daily:" ++ clientId ++ ":" ++ today

def concurrentKeyOf (clientId : String) : String :=
  "rate:concurrent:" ++ clientId

/-- Operations issued against the rate-limiter backend, recorded as a ghost
trace so that theorems can speak about which keys the code touches. -/
inductive RateOp where
  | incr (k : String)
  | decr (k : String)
  | rget (k : String)
  | expire (k : String) (seconds : Nat)
  | del (k : String)
deriving DecidableEq, Repr

/-- The JavaScript test `concurrentCount && parseInt(concurrentCount) >= CONCURRENT_LIMIT`:
an absent counter (null) is falsy; a present counter blocks when at or above
the limit. -/
def concBlocked (concurrentCount : Option Nat) (concurrentLimit : Nat) : Bool :=
  match concurrentCount with
  | some c => decide (concurrentLimit ≤ c)
  | none => false

/-- `checkRateLimit(clientId)` with the in-memory backend, instrumented with
the trace of backend operations.  `today` stands for
`new Date().toISOString().split('T')[0]` and the two limits for the
`DAILY_RESEARCH_CAP_PER_TENANT` / `MAX_CONCURRENT_RESEARCH_JOBS` environment
configuration. -/
def checkRateLimitTr (dailyLimit concurrentLimit : Nat) (clientId today : String)
    (s : MemStore) : MemStore × Bool × List RateOp :=
  let dailyKey := dailyKeyOf clientId today
  let concurrentKey := concurrentKeyOf clientId
  let (dailyCount, s1) := memIncr s dailyKey
  let (s2, tr2) :=
    if dailyCount = 1 then (memExpire s1 dailyKey 86400, [RateOp.incr dailyKey, RateOp.expire dailyKey 86400])
    else (s1, [RateOp.incr dailyKey])
  if dailyLimit < dailyCount then
    let (_, s3) := memDecr s2 dailyKey
    (s3, false, tr2 ++ [RateOp.decr dailyKey])
  else
    let concurrentCount := memGet s2 concurrentKey
    if concBlocked concurrentCount concurrentLimit then
      let (_, s3) := memDecr s2 dailyKey
      (s3, false, tr2 ++ [RateOp.rget concurrentKey, RateOp.decr dailyKey])
    else (s2, true, tr2 ++ [RateOp.rget concurrentKey])

/-- `checkRateLimit` proper (the trace is ghost instrumentation). -/
def checkRateLimit (dailyLimit concurrentLimit : Nat) (clientId today : String)
    (s : MemStore) : MemStore × Bool :=
  let r := checkRateLimitTr dailyLimit concurrentLimit clientId today s
  (r.1, r.2.1)

def incrementConcurrent (clientId : String) (s : MemStore) : MemStore :=
  let k := concurrentKeyOf clientId
  let (_, s1) := memIncr s k
  memExpire s1 k 3600

def decrementConcurrent (clientId : String) (s : MemStore) : MemStore :=
  let k := concurrentKeyOf clientId
  let (count, s1) := memDecr s k
  if count = 0 then memDel s1 k else s1

/-! ## checkRateLimit against a fallible Counter Store backend

The body of `checkRateLimit` sits inside `try { ... } catch { return true }`;
every backend operation can reject.  The backend is abstracted as a record of
fallible operations (the Redis client path). -/

structure CounterOps where
  incr : String → Except Unit Nat
  decr : String → Except Unit Nat
  oget : String → Except Unit (Option Nat)
  expire : String → Nat → Except Unit Unit

/-- The `try` block of `checkRateLimit`. -/
def checkRateLimitBody (ops : CounterOps) (dailyLimit concurrentLimit : Nat)
    (clientId today : String) : Except Unit Bool := do
  let dailyKey := dailyKeyOf clientId today
  let concurrentKey := concurrentKeyOf clientId
  let dailyCount ← ops.incr dailyKey
  if dailyCount = 1 then
    let _ ← ops.expire dailyKey 86400
  if dailyLimit < dailyCount then
    let _ ← ops.decr dailyKey
    return false
  let concurrentCount ← ops.oget concurrentKey
  if concBlocked concurrentCount concurrentLimit then
    let _ ← ops.decr dailyKey
    return false
  return true

/-- `checkRateLimit` with its `catch`: a backend error yields `true`. -/
def checkRateLimitF (ops : CounterOps) (dailyLimit concurrentLimit : Nat)
    (clientId today : String) : Bool :=
  match checkRateLimitBody ops dailyLimit concurrentLimit clientId today with
  | .ok b => b
  | .error _ => true

def failingOps : CounterOps where
  incr := fun _ => .error ()
  decr := fun _ => .error ()
  oget := fun _ => .error ()
  expire := fun _ _ => .error ()

/-! ## The research POST handler (src/app/api/research/route.ts)

The handler parses the body (`ResearchRequestSchema.safeParse`, abstracted as
an `Option ResearchRequest` oracle), calls `checkRateLimit`, throws
`RateLimitError` (429) when it denies, then dispatches to
`searchOpportunities` or `runDeepResearch` (oracles here); any thrown error is
mapped to a status code by `errorHandler` (src/lib/errors.ts). -/

structure ResearchRequest where
  keywords : Option String
  location : Option String
  companyName : Option String
  companyUrl : Option String
  notes : Option String
  clientId : Option String
  userId : Option String
deriving DecidableEq, Repr

/-- JavaScript `o || d` for an optional string (empty string is falsy). -/
def jsOrDefault (o : Option String) (d : String) : String :=
  match o with
  | some s => if s = "" then d else s
  | none => d

/-- JavaScript truthiness of an optional string. -/
def truthyS (o : Option String) : Bool :=
  match o with
  | some s => decide (s ≠ "")
  | none => false

inductive EngineErr where
  | validation
  | rateLimit
  | external
  | other
deriving DecidableEq, Repr

/-- Status codes assigned by the error classes in src/lib/errors.ts and by
`errorHandler` for unknown errors. -/
def errorStatus : EngineErr → Nat
  | .validation => 400
  | .rateLimit => 429
  | .external => 502
  | .other => 500

inductive ApiResponse (α : Type) where
  | success (r : α)
  | errorResp (statusCode : Nat)
deriving DecidableEq, Repr

def POSTresearch {α : Type} (parsed : Option ResearchRequest)
    (searchOpp deepRes : ResearchRequest → Except EngineErr α)
    (dailyLimit concurrentLimit : Nat) (today : String) (s : MemStore) :
    MemStore × ApiResponse α × List RateOp :=
  match parsed with
  | none => (s, .errorResp 400, [])
  | some data =>
    let clientId := jsOrDefault data.clientId "anonymous"
    let r := checkRateLimitTr dailyLimit concurrentLimit clientId today s
    let s1 := r.1
    let ok := r.2.1
    let tr := r.2.2
    if ok = false then (s1, .errorResp 429, tr)
    else
      let resE :=
        if truthyS data.keywords && !truthyS data.companyName && !truthyS data.companyUrl
        then searchOpp data else deepRes data
      let resp := match resE with
        | .ok v => ApiResponse.success v
        | .error e => ApiResponse.errorResp (errorStatus e)
      (s1, resp, tr)

/-! ## Findings and the OSINT evidence bundle (src/types/index.ts)

`confidence` is embedded as `ℚ` (the code only multiplies by decimal constants
and clamps, all exactly representable). -/

structure Source where
  title : String
  url : Option String
  date : Option String
deriving DecidableEq, Repr

structure Finding where
  title : String
  detail : String
  confidence : ℚ
  tags : List String
  sources : List Source
deriving DecidableEq, Repr

structure JobPosting where
  title : String
  company : String
  url : Option String
  location : Option String
  date : Option String
  source : Option String
deriving DecidableEq, Repr

structure TechItem where
  name : Option String
  product : Option String
  category : Option String
deriving DecidableEq, Repr

structure NewsItem where
  title : String
  url : Option String
  date : Option String
  source : Option String
deriving DecidableEq, Repr

structure SocialProfile where
  platform : String
  url : Option String
  followers : Option Nat
deriving DecidableEq, Repr

structure ProcurementItem where
  agency : String
  date : Option String
  amount : Option ℚ
deriving DecidableEq, Repr

structure ArchiveItem where
  url : Option String
  snapshotUrl : Option String
deriving DecidableEq, Repr

/-- The evidence bundle; the `corp` and `evidence` facets are omitted because
no function embedded here reads them. -/
structure OsintContext where
  companyName : String
  domain : String
  homepageUrl : String
  news : List NewsItem
  jobs : List JobPosting
  tech : List TechItem
  social : List SocialProfile
  procurement : List ProcurementItem
  archives : List ArchiveItem
deriving DecidableEq, Repr

/-- `String.prototype.toLowerCase` (ASCII range; the keyword tests below only
involve ASCII). -/
def lowerStr (s : String) : String := String.mk (s.data.map Char.toLower)

def charsLeads : List Char → List Char → Bool
  | [], _ => true
  | _ :: _, [] => false
  | c :: cs, h :: hs => c == h && charsLeads cs hs

def charsContains (hay needle : List Char) : Bool :=
  match hay with
  | [] => needle.isEmpty
  | _ :: rest => charsLeads needle hay || charsContains rest needle

/-- `String.prototype.includes` (contiguous substring test). -/
def strIncludes (hay needle : String) : Bool := charsContains hay.data needle.data

/-- JavaScript `a || b` on an optional string operand (empty string falsy). -/
def jsOr (a : Option String) (b : String) : String :=
  match a with
  | some s => if s = "" then b else s
  | none => b

/-- `t.name || t.product || ''`. -/
def techLabel (t : TechItem) : String := jsOr t.name (jsOr t.product "")

def findingHasTag (f : Finding) (t : String) : Bool := f.tags.contains t

/-! ## analyzeAutomationPotential
(src/services/research/horsemen/analyzers/automation-potential.ts)

The five mutable `score += ...; factors++` factor accumulations are embedded
as one definition per local variable. -/

def factorScore (cond : Bool) (pts : ℚ) : ℚ := if cond then pts else 0

def factorCount (cond : Bool) : ℚ := if cond then 1 else 0

def automationOpportunities (findings : List Finding) : Nat :=
  (findings.filter (fun f => findingHasTag f "automation-opportunity")).length

def hasGrowthSignals (findings : List Finding) : Bool :=
  findings.any (fun f => findingHasTag f "growth")

def hasMultipleJobs (context : OsintContext) : Bool := decide (5 ≤ context.jobs.length)

def detailHasRepetitive (f : Finding) : Bool :=
  strIncludes (lowerStr f.detail) "repetitive" || strIncludes (lowerStr f.detail) "manual" ||
    strIncludes (lowerStr f.detail) "high volume"

def hasRepetitiveTasks (findings : List Finding) : Bool := findings.any detailHasRepetitive

def hasTechStack (context : OsintContext) : Bool := decide (0 < context.tech.length)

def hasModernTech (context : OsintContext) : Bool :=
  context.tech.any (fun t =>
    ["cloud", "saas", "api", "automation"].any (fun kw => strIncludes (lowerStr (techLabel t)) kw))

def hasProcurement (context : OsintContext) : Bool := decide (0 < context.procurement.length)

def hasHighValueContracts (context : OsintContext) : Bool :=
  context.procurement.any (fun p => decide ((100000 : ℚ) < p.amount.getD 0))

def automationScoreSum (context : OsintContext) (findings : List Finding) : ℚ :=
  factorScore (decide (0 < automationOpportunities findings))
      (min ((automationOpportunities findings : ℚ) * (1 / 2)) 2)
    + factorScore (hasGrowthSignals findings || hasMultipleJobs context) (3 / 2)
    + factorScore (hasRepetitiveTasks findings) 2
    + factorScore (hasTechStack context) (if hasModernTech context then 2 else 1)
    + factorScore (hasProcurement context) (if hasHighValueContracts context then 2 else 1)

def automationFactorsSum (context : OsintContext) (findings : List Finding) : ℚ :=
  factorCount (decide (0 < automationOpportunities findings))
    + factorCount (hasGrowthSignals findings || hasMultipleJobs context)
    + factorCount (hasRepetitiveTasks findings)
    + factorCount (hasTechStack context)
    + factorCount (hasProcurement context)

def automationFinalScore (context : OsintContext) (findings : List Finding) : ℚ :=
  if 0 < automationFactorsSum context findings then
    (automationScoreSum context findings / automationFactorsSum context findings) * 5
  else 0

def automationDataPoints (context : OsintContext) (findings : List Finding) : Nat :=
  (([decide (0 < context.jobs.length), decide (0 < context.tech.length),
      decide (0 < context.news.length), decide (0 < context.procurement.length),
      decide (5 < findings.length)] : List Bool).filter id).length

/-- `Math.round` on an exact rational. -/
def jsRound (q : ℚ) : ℤ := ⌊q + 1 / 2⌋

structure AutomationScore where
  score : ℚ
  confidence : ℚ
  level : String
deriving DecidableEq, Repr

def analyzeAutomationPotential (context : OsintContext) (findings : List Finding) :
    AutomationScore :=
  let finalScore := automationFinalScore context findings
  { score := (jsRound (finalScore * 10) : ℚ) / 10
    confidence := min ((1 / 2 : ℚ) + (automationDataPoints context findings : ℚ) * (1 / 10)) (19 / 20)
    level :=
      if 7 ≤ finalScore then "high-potential"
      else if 4 ≤ finalScore then "moderate-potential"
      else "low-potential" }

/-! ## kevinPass — cross-verification stage
(the rule-based path of `kevinPass` in src/services/research/horsemen/index.ts,
taken whenever no LLM provider is configured)

The JavaScript pass filters with an in-place confidence mutation, then
deduplicates through a `Map` keyed by `` title-tags.join('-') `` (tags in the
order they appear, NOT sorted), keeping an existing entry unless the new one
has strictly higher confidence. -/

def kevinBoost (f : Finding) : Finding :=
  if 3 ≤ f.sources.length then { f with confidence := min (f.confidence * (6 / 5)) 1 } else f

def kevinFilterBoost : List Finding → List Finding
  | [] => []
  | f :: rest =>
    if f.confidence < 1 / 2 ∧ f.sources.length < 2 then kevinFilterBoost rest
    else kevinBoost f :: kevinFilterBoost rest

/-- `Array.prototype.join('-')`. -/
def joinDash : List String → String
  | [] => ""
  | [t] => t
  | t :: rest => t ++ "-" ++ joinDash rest

def kevinKey (f : Finding) : String := f.title ++ "-" ++ joinDash f.tags

def kevinDedupStep (acc : List (String × Finding)) (f : Finding) : List (String × Finding) :=
  match alookup acc (kevinKey f) with
  | none => acc ++ [(kevinKey f, f)]
  | some g0 => if g0.confidence < f.confidence then aset acc (kevinKey f) f else acc

def kevinDedup (l : List Finding) : List Finding :=
  (l.foldl kevinDedupStep []).map Prod.snd

def kevinPass (_context : OsintContext) (preliminary : List Finding) : List Finding :=
  kevinDedup (kevinFilterBoost preliminary)

def emptyContext : OsintContext :=
  { companyName := "Acme", domain := "", homepageUrl := "", news := [], jobs := [],
    tech := [], social := [], procurement := [], archives := [] }

def kevinDupA : Finding :=
  { title := "Duplicate finding", detail := "", confidence := 3 / 5,
    tags := ["beta", "alpha"], sources := [{ title := "s1", url := none, date := none }] }

def kevinDupB : Finding :=
  { title := "Duplicate finding", detail := "", confidence := 7 / 10,
    tags := ["alpha", "beta"], sources := [{ title := "s1", url := none, date := none }] }

/-! ## Stable descending sort

`Array.prototype.sort` with comparator `(a, b) => scoreB - scoreA` is, per the
ECMAScript specification, a stable sort yielding the elements in descending
score order; any stable algorithm produces the same list, embedded here as a
stable insertion sort (each element is placed after all earlier elements with
a score at least as large). -/

def insDesc {α β : Type} [LinearOrder β] (score : α → β) (x : α) : List α → List α
  | [] => [x]
  | y :: ys => if score x ≤ score y then y :: insDesc score x ys else x :: y :: ys

def stableSortDesc {α β : Type} [LinearOrder β] (score : α → β) (l : List α) : List α :=
  l.foldl (fun acc x => insDesc score x acc) []

/-! ## pinkoPass — final synthesis and prioritization
(rule-based path of `pinkoPass` in src/services/research/horsemen/index.ts)

`toString` of a rational renders differently from JavaScript number
formatting; no claim concerns the summary text.  `today` stands for
`new Date().toISOString().split('T')[0]`. -/

def generateSynthesis (context : OsintContext) (findings : List Finding)
    (auto : AutomationScore) : String :=
  let opportunities := (findings.filter (fun f =>
    findingHasTag f "automation-opportunity" || findingHasTag f "high-impact")).length
  let hasJobs := decide (0 < context.jobs.length)
  let hasTech := decide (0 < context.tech.length)
  let hasGrowth := findings.any (fun f => findingHasTag f "growth")
  let s1 := context.companyName ++ " shows " ++ auto.level ++
    " potential for AI automation (score: " ++ toString auto.score ++ "/10). "
  let s2 := if 0 < opportunities then
    s1 ++ "Identified " ++ toString opportunities ++ " specific automation opportunities. " else s1
  let s3 := if hasJobs then
    s2 ++ "Active hiring indicates growth and potential for process optimization. " else s2
  let s4 := if hasTech then
    s3 ++ "Existing tech stack suggests openness to technology adoption. " else s3
  if hasGrowth then s4 ++ "Growth signals indicate scaling challenges that AI could address. " else s4

/-- The priority used by the final sort: `confidence * (high-impact ? 1.5 : 1)`. -/
def priorityScore (f : Finding) : ℚ :=
  f.confidence * (if f.tags.contains "high-impact" then 3 / 2 else 1)

def synthesisFinding (today : String) (context : OsintContext) (verified : List Finding) :
    Finding :=
  let auto := analyzeAutomationPotential context verified
  { title := "Overall Automation Opportunity Assessment"
    detail := generateSynthesis context verified auto
    confidence := auto.confidence
    tags := ["synthesis", "recommendation", auto.level]
    sources := [{ title := "Comprehensive Analysis", url := none, date := some today }] }

def pinkoPass (today : String) (context : OsintContext) (verified : List Finding) :
    List Finding :=
  stableSortDesc priorityScore (verified ++ [synthesisFinding today context verified])

def pinkoBig : Finding :=
  { title := "Dominant finding", detail := "", confidence := 99 / 100, tags := [], sources := [] }

/-! ## CacheService.get / CacheService.set error handling (src/lib/cache.ts)

Both methods first test the `ENABLE_CACHE` flag, then wrap every backend
interaction in `try { ... } catch { log }`.  The backend read can return a
raw string (Redis path, then `JSON.parse` runs, which can itself throw) or an
already-structured value (in-memory path); reads, parses and writes are
abstracted as `Except` oracles. -/

def cacheServiceGet {V : Type} (enabled : Bool)
    (backendGet : Except Unit (Option (String ⊕ V)))
    (parse : String → Except Unit V) : Option V :=
  if enabled = false then none
  else
    match (do
      let cached ← backendGet
      match cached with
      | some (.inl s) => do
          let v ← parse s
          pure (some v)
      | some (.inr v) => pure (some v)
      | none => pure (none : Option V) : Except Unit (Option V)) with
    | .ok r => r
    | .error _ => none

def cacheServiceSet {σ : Type} (enabled : Bool) (s : σ)
    (backendSet : Except Unit σ) : σ :=
  if enabled = false then s
  else
    match backendSet with
    | .ok s2 => s2
    | .error _ => s

/-! ## searchOpportunities (src/services/research/engine.ts)

The collaborators are parameters: `jobBoardResults` is the list returned by
`searchJobBoards({keywords, location})`, `hostname` models
`new URL(u).hostname`, and `deepResearch` models the sibling
`runDeepResearch`, whose evidence collection / pipeline can reject with
`ExternalServiceError`.  The cache for the `JOB_SEARCH` namespace is threaded
explicitly (the in-memory backend stores the structured value as-is);
`cacheEnabled` is the `ENABLE_CACHE` flag and expiry is not modelled (claims
about cached reads assume an unexpired entry). -/

structure CompanyFindings where
  company : String
  jobs : List JobPosting
  research : List Finding
deriving DecidableEq, Repr

structure SearchResult where
  jobId : String
  modelName : String
  summary : String
  findings : List CompanyFindings
  metaKeywords : String
  metaLocation : Option String
  metaNotes : Option String
deriving DecidableEq, Repr, Inhabited

structure DeepResearchResult where
  jobId : String
  summary : String
  findings : List Finding
deriving DecidableEq, Repr

def groupByCompany (jobs : List JobPosting) : List (String × List JobPosting) :=
  jobs.foldl (fun m job => aset m job.company ((alookup m job.company).getD [] ++ [job])) []

def topCompaniesOf (jobs : List JobPosting) : List (String × List JobPosting) :=
  (stableSortDesc (fun p => p.2.length) (groupByCompany jobs)).take 10

def companyUrlOf (hostname : String → String) (jobs : List JobPosting) : Option String :=
  match jobs with
  | [] => none
  | j :: _ =>
    match j.url with
    | some u => if u = "" then none else some (hostname u)
    | none => none

/-- The per-company loop body of `searchOpportunities`: each top company is
deep-researched in turn (the error of a failing company propagates out of the
loop). -/
def searchAnalyzeCompanies
    (deepResearch : ResearchRequest → Except EngineErr DeepResearchResult)
    (hostname : String → String) (notes : Option String)
    (top : List (String × List JobPosting)) : Except EngineErr (List CompanyFindings) :=
  top.foldlM (fun acc p => do
    let analysis ← deepResearch
      { keywords := none, location := none,
        companyName := some p.1,
        companyUrl := companyUrlOf hostname p.2,
        notes := some ((jsOr notes "") ++ " Found " ++ toString p.2.length ++
          " relevant job postings"),
        clientId := none, userId := none }
    pure (acc ++ [{ company := p.1, jobs := p.2, research := analysis.findings }]))
    ([] : List CompanyFindings)

def searchOpportunities
    (deepResearch : ResearchRequest → Except EngineErr DeepResearchResult)
    (jobBoardResults : List JobPosting)
    (hostname : String → String)
    (cacheEnabled : Bool)
    (request : ResearchRequest)
    (jobCache : List (String × SearchResult)) :
    Except EngineErr (SearchResult × List (String × SearchResult)) :=
  match request.keywords with
  | none => .error .validation
  | some kw =>
    if kw = "" then .error .validation
    else
      let cacheKey : KeyParams := ⟨[("keywords", some kw), ("location", request.location)]⟩
      let key := cacheGenerateKey "JOB_SEARCH" cacheKey
      let cached := if cacheEnabled then alookup jobCache key else none
      match cached with
      | some r => .ok (r, jobCache)
      | none => do
        let findings ← searchAnalyzeCompanies deepResearch hostname request.notes
          (topCompaniesOf jobBoardResults)
        let result : SearchResult :=
          { jobId := jsOrDefault request.clientId "anonymous"
            modelName := "opportunity-search"
            summary := "Found " ++ toString jobBoardResults.length ++ " job postings across " ++
              toString (groupByCompany jobBoardResults).length ++ " companies. Top " ++
              toString findings.length ++ " companies analyzed."
            findings := findings
            metaKeywords := kw
            metaLocation := request.location
            metaNotes := request.notes }
        let jobCache2 := if cacheEnabled then aset jobCache key result else jobCache
        .ok (result, jobCache2)

def c4jobs : List JobPosting :=
  [{ title := "Data entry clerk", company := "Acme", url := some "https://acme.example/j1",
     location := none, date := none, source := none },
   { title := "Office clerk", company := "Acme", url := none,
     location := none, date := none, source := none },
   { title := "Records clerk", company := "Beta LLC", url := none,
     location := none, date := none, source := none }]

/-- Evidence collection / deep research fails for exactly one of the two
candidate companies. -/
def c4deepResearch (r : ResearchRequest) : Except EngineErr DeepResearchResult :=
  if r.companyName == some "Beta LLC" then .error .external
  else .ok { jobId := "anonymous", summary := "ok", findings := [] }

def c4request : ResearchRequest :=
  { keywords := some "data entry", location := some "Remote", companyName := none,
    companyUrl := none, notes := none, clientId := some "tenant-a", userId := none }

def c10deepResearch (_r : ResearchRequest) : Except EngineErr DeepResearchResult :=
  .ok { jobId := "anonymous", summary := "ok", findings := [] }

def c10jobs : List JobPosting :=
  [{ title := "Data entry clerk", company := "Acme", url := none,
     location := none, date := none, source := none }]

def c10request1 : ResearchRequest :=
  { keywords := some "data entry", location := some "NYC", companyName := none,
    companyUrl := none, notes := none, clientId := some "tenant-a", userId := none }

def c10request2 : ResearchRequest :=
  { keywords := some "data entry", location := some "NYC", companyName := none,
    companyUrl := none, notes := none, clientId := some "tenant-b", userId := none }

def c10run : Except EngineErr (SearchResult × List (String × SearchResult)) :=
  searchOpportunities c10deepResearch c10jobs (fun _ => "") true c10request1 []

def c10result : SearchResult :=
  match c10run with
  | .ok (r, _) => r
  | .error _ => default

def c10cache : List (String × SearchResult) :=
  match c10run with
  | .ok (_, c) => c
  | .error _ => []

def c5params1 : KeyParams :=
  ⟨[("keywords", some "data entry"), ("location", some "New York")]⟩

def c5params1b : KeyParams :=
  ⟨[("keywords", some "data entry"), ("location", some "New York")]⟩

def c5params2 : KeyParams :=
  ⟨[("location", some "New York"), ("keywords", some "data entry")]⟩

/-- FIPS 180-4 test vector, validating the embedded hash. -/
theorem sha256Hex_abc :
    sha256Hex "abc" = "ba7816bf8f01cfea414140de5dae2223b00361a396177a9cb410ff61f20015ad" := by
  decide

/-- Second test vector (empty input). -/
theorem sha256Hex_empty :
    sha256Hex "" = "e3b0c44298fc1c149afbf4c8996fb92427ae41e4649b934ca495991b7852b855" := by
  decide

theorem alookup_aset_self {β : Type} (l : List (String × β)) (k : String) (v : β) :
    alookup (aset l k v) k = some v := by
  induction l with
  | nil => simp [aset, alookup]
  | cons p rest ih =>
    by_cases h : p.1 = k
    · simp [aset, alookup, h]
    · simp [aset, alookup, h, ih]

theorem alookup_aset_ne {β : Type} {k k2 : String} (h : k2 ≠ k) (l : List (String × β)) (v : β) :
    alookup (aset l k v) k2 = alookup l k2 := by
  induction l with
  | nil => simp [aset, alookup, Ne.symm h]
  | cons p rest ih =>
    by_cases hp : p.1 = k
    · simp [aset, alookup, hp, Ne.symm h]
    · simp [aset, alookup, hp, ih]

theorem alookup_aremove_ne {β : Type} {k k2 : String} (h : k2 ≠ k) (l : List (String × β)) :
    alookup (aremove l k) k2 = alookup l k2 := by
  induction l with
  | nil => simp [aremove, alookup]
  | cons p rest ih =>
    by_cases hp : p.1 = k
    · simp [aremove, alookup, hp, Ne.symm h, ih]
    · simp [aremove, alookup, hp, ih]

theorem alookup_aremove_self {β : Type} (l : List (String × β)) (k : String) :
    alookup (aremove l k) k = none := by
  induction l with
  | nil => simp [aremove, alookup]
  | cons p rest ih =>
    by_cases hp : p.1 = k
    · simp [aremove, alookup, hp, ih]
    · simp [aremove, alookup, hp, ih]

theorem dailyKey_ne_concurrentKey (c t c2 : String) :
    dailyKeyOf c t ≠ concurrentKeyOf c2 := by
  intro h
  have h2 := congrArg String.data h
  rw [dailyKeyOf, concurrentKeyOf] at h2
  rw [show ("rate:daily:" ++ c ++ ":" ++ t).data
        = ['r', 'a', 't', 'e', ':', 'd', 'a', 'i', 'l', 'y', ':'] ++ c.data ++ [':'] ++ t.data
      from by simp [String.data_append]] at h2
  rw [show ("rate:concurrent:" ++ c2).data
        = ['r', 'a', 't', 'e', ':', 'c', 'o', 'n', 'c', 'u', 'r', 'r', 'e', 'n', 't', ':'] ++ c2.data
      from by simp [String.data_append]] at h2
  simp at h2

/-- C1: the admission check increments the (tenant, UTC-date) daily counter,
records a 24-hour expiry exactly when that increment yields 1, reverts the
increment and returns false when the incremented value exceeds the daily limit
or (otherwise) when the concurrency counter is at or above the concurrency
limit, and returns true in all remaining cases; the concurrency counter itself
is never mutated. -/
theorem checkRateLimit_admission_spec (DL CL : Nat) (clientId today : String) (s : MemStore) :
    ((checkRateLimit DL CL clientId today s).2 = false ↔
        (DL < (alookup s.counters (dailyKeyOf clientId today)).getD 0 + 1 ∨
          ((alookup s.counters (dailyKeyOf clientId today)).getD 0 + 1 ≤ DL ∧
            concBlocked (memGet s (concurrentKeyOf clientId)) CL = true)))
    ∧ ((alookup (checkRateLimit DL CL clientId today s).1.counters (dailyKeyOf clientId today)).getD 0
        = if (checkRateLimit DL CL clientId today s).2
          then (alookup s.counters (dailyKeyOf clientId today)).getD 0 + 1
          else (alookup s.counters (dailyKeyOf clientId today)).getD 0)
    ∧ (alookup (checkRateLimit DL CL clientId today s).1.expiries (dailyKeyOf clientId today)
        = if (alookup s.counters (dailyKeyOf clientId today)).getD 0 = 0 then some 86400
          else alookup s.expiries (dailyKeyOf clientId today))
    ∧ (alookup (checkRateLimit DL CL clientId today s).1.counters (concurrentKeyOf clientId)
        = alookup s.counters (concurrentKeyOf clientId)) := by
  have hne : concurrentKeyOf clientId ≠ dailyKeyOf clientId today :=
    fun h => dailyKey_ne_concurrentKey clientId today clientId h.symm
  simp only [checkRateLimit, checkRateLimitTr, memIncr, memExpire, memGet, memDecr]
  split_ifs <;>
    (simp_all [alookup_aset_self, alookup_aset_ne hne, alookup_aremove_self,
       alookup_aremove_ne hne]
     all_goals omega)

/-- C2: if any Counter Store operation issued during the admission check
raises an error, the check fails open and admits the request. -/
theorem checkRateLimit_fail_open (ops : CounterOps) (DL CL : Nat)
    (clientId today : String) (e : Unit)
    (h : checkRateLimitBody ops DL CL clientId today = .error e) :
    checkRateLimitF ops DL CL clientId today = true := by
  simp [checkRateLimitF, h]

/-- Witness for C2: with a backend whose increment rejects, the admission
check returns true. -/
theorem checkRateLimit_fail_open_witness :
    checkRateLimitF failingOps 50 3 "tenant-a" "2025-01-01" = true :=
  checkRateLimit_fail_open failingOps 50 3 "tenant-a" "2025-01-01" () rfl

/-- C3 (refuted by the code): across every path of the research POST handler,
no increment, decrement or delete of any tenant's concurrency counter is ever
issued, and every concurrency counter is left exactly as it was — the handler
checks admission but never acquires or releases the concurrency slot that the
spec (and the repository's own engine tests) require. -/
theorem post_never_touches_concurrency {α : Type} (parsed : Option ResearchRequest)
    (searchOpp deepRes : ResearchRequest → Except EngineErr α)
    (DL CL : Nat) (today : String) (s : MemStore) (cid : String) :
    RateOp.incr (concurrentKeyOf cid) ∉ (POSTresearch parsed searchOpp deepRes DL CL today s).2.2
    ∧ RateOp.decr (concurrentKeyOf cid) ∉ (POSTresearch parsed searchOpp deepRes DL CL today s).2.2
    ∧ RateOp.del (concurrentKeyOf cid) ∉ (POSTresearch parsed searchOpp deepRes DL CL today s).2.2
    ∧ alookup (POSTresearch parsed searchOpp deepRes DL CL today s).1.counters (concurrentKeyOf cid)
        = alookup s.counters (concurrentKeyOf cid) := by
  cases parsed with
  | none => simp [POSTresearch]
  | some data =>
    have hne : concurrentKeyOf cid ≠ dailyKeyOf (jsOrDefault data.clientId "anonymous") today :=
      fun h => dailyKey_ne_concurrentKey _ _ _ h.symm
    simp only [POSTresearch, checkRateLimitTr, memIncr, memExpire, memGet, memDecr]
    split_ifs <;>
      simp_all [alookup_aset_ne hne, alookup_aremove_ne hne, hne]

theorem factorScore_nonneg (cond : Bool) (pts : ℚ) (h : 0 ≤ pts) : 0 ≤ factorScore cond pts := by
  unfold factorScore; split <;> simp [h]

theorem factorScore_le_two_mul (cond : Bool) (pts : ℚ) (h : pts ≤ 2) :
    factorScore cond pts ≤ 2 * factorCount cond := by
  unfold factorScore factorCount; split <;> norm_num [h]

theorem factorCount_nonneg (cond : Bool) : 0 ≤ factorCount cond := by
  unfold factorCount; split <;> norm_num

theorem automationScoreSum_nonneg (context : OsintContext) (findings : List Finding) :
    0 ≤ automationScoreSum context findings := by
  unfold automationScoreSum
  have h1 := factorScore_nonneg (decide (0 < automationOpportunities findings))
    (min ((automationOpportunities findings : ℚ) * (1 / 2)) 2) (le_min (by positivity) (by norm_num))
  have h2 := factorScore_nonneg (hasGrowthSignals findings || hasMultipleJobs context)
    (3 / 2) (by norm_num)
  have h3 := factorScore_nonneg (hasRepetitiveTasks findings) 2 (by norm_num)
  have h4 := factorScore_nonneg (hasTechStack context)
    (if hasModernTech context then 2 else 1) (by split <;> norm_num)
  have h5 := factorScore_nonneg (hasProcurement context)
    (if hasHighValueContracts context then 2 else 1) (by split <;> norm_num)
  linarith

theorem automationScoreSum_le (context : OsintContext) (findings : List Finding) :
    automationScoreSum context findings ≤ 2 * automationFactorsSum context findings := by
  unfold automationScoreSum automationFactorsSum
  have h1 := factorScore_le_two_mul (decide (0 < automationOpportunities findings))
    (min ((automationOpportunities findings : ℚ) * (1 / 2)) 2) (min_le_right _ _)
  have h2 := factorScore_le_two_mul (hasGrowthSignals findings || hasMultipleJobs context)
    (3 / 2) (by norm_num)
  have h3 := factorScore_le_two_mul (hasRepetitiveTasks findings) 2 (by norm_num)
  have h4 := factorScore_le_two_mul (hasTechStack context)
    (if hasModernTech context then 2 else 1) (by split <;> norm_num)
  have h5 := factorScore_le_two_mul (hasProcurement context)
    (if hasHighValueContracts context then 2 else 1) (by split <;> norm_num)
  linarith

theorem automationFactorsSum_nonneg (context : OsintContext) (findings : List Finding) :
    0 ≤ automationFactorsSum context findings := by
  unfold automationFactorsSum
  have h1 := factorCount_nonneg (decide (0 < automationOpportunities findings))
  have h2 := factorCount_nonneg (hasGrowthSignals findings || hasMultipleJobs context)
  have h3 := factorCount_nonneg (hasRepetitiveTasks findings)
  have h4 := factorCount_nonneg (hasTechStack context)
  have h5 := factorCount_nonneg (hasProcurement context)
  linarith

theorem automationFinalScore_bounds (context : OsintContext) (findings : List Finding) :
    0 ≤ automationFinalScore context findings ∧ automationFinalScore context findings ≤ 10 := by
  unfold automationFinalScore
  have hS0 := automationScoreSum_nonneg context findings
  have hSF := automationScoreSum_le context findings
  split_ifs with h
  · constructor
    · positivity
    · have hdiv : automationScoreSum context findings / automationFactorsSum context findings ≤ 2 :=
        (div_le_iff₀ h).mpr (by linarith)
      linarith
  · norm_num

/-- C8: the deterministic synthesis score lies in [0, 10] and its confidence
lies in [0, 1], for every evidence bundle and every Finding list. -/
theorem automationScore_bounds (context : OsintContext) (findings : List Finding) :
    0 ≤ (analyzeAutomationPotential context findings).score
    ∧ (analyzeAutomationPotential context findings).score ≤ 10
    ∧ 0 ≤ (analyzeAutomationPotential context findings).confidence
    ∧ (analyzeAutomationPotential context findings).confidence ≤ 1 := by
  obtain ⟨hf0, hf10⟩ := automationFinalScore_bounds context findings
  have hr0 : (0 : ℤ) ≤ jsRound (automationFinalScore context findings * 10) := by
    rw [jsRound]
    exact Int.le_floor.mpr (by push_cast; linarith)
  have hr100 : jsRound (automationFinalScore context findings * 10) ≤ 100 := by
    rw [jsRound]
    have hlt : (automationFinalScore context findings * 10 + 1 / 2 : ℚ) < ((101 : ℤ) : ℚ) := by
      push_cast; linarith
    exact Int.lt_add_one_iff.mp (Int.floor_lt.mpr hlt)
  refine ⟨?_, ?_, ?_, ?_⟩
  · show (0 : ℚ) ≤ (jsRound (automationFinalScore context findings * 10) : ℚ) / 10
    have : (0 : ℚ) ≤ (jsRound (automationFinalScore context findings * 10) : ℚ) := by
      exact_mod_cast hr0
    positivity
  · show (jsRound (automationFinalScore context findings * 10) : ℚ) / 10 ≤ 10
    have h100 : (jsRound (automationFinalScore context findings * 10) : ℚ) ≤ 100 := by
      exact_mod_cast hr100
    linarith
  · show (0 : ℚ) ≤ min ((1 / 2 : ℚ) + (automationDataPoints context findings : ℚ) * (1 / 10)) (19 / 20)
    exact le_min (by positivity) (by norm_num)
  · show min ((1 / 2 : ℚ) + (automationDataPoints context findings : ℚ) * (1 / 10)) (19 / 20) ≤ 1
    exact le_trans (min_le_right _ _) (by norm_num)

/-- Counterexample to C6: two Findings with the same title and the same tag
set up to order survive the kevin pass side by side — the dedup key uses the
tags in their given order, not sorted, so deduplication by
`(title, sorted tags)` (which would keep only the higher-confidence one)
does not happen. -/
theorem kevinPass_tag_order_counterexample :
    kevinPass emptyContext [kevinDupA, kevinDupB] = [kevinDupA, kevinDupB]
    ∧ kevinDupA.title = kevinDupB.title
    ∧ kevinDupA.tags.Perm kevinDupB.tags
    ∧ kevinDupA.confidence < kevinDupB.confidence
    ∧ (kevinPass emptyContext [kevinDupA, kevinDupB]).length ≠ 1 := by
  have h : kevinPass emptyContext [kevinDupA, kevinDupB] = [kevinDupA, kevinDupB] := by
    norm_num [kevinPass, kevinFilterBoost, kevinDedup, kevinDedupStep, kevinBoost, kevinKey,
      kevinDupA, kevinDupB, alookup, aset, joinDash]
    rfl
  refine ⟨h, rfl, List.Perm.swap _ _ _, by norm_num [kevinDupA, kevinDupB], by rw [h]; decide⟩

theorem alookup_none_forall {β : Type} (l : List (String × β)) (k : String)
    (h : alookup l k = none) : ∀ p ∈ l, p.1 ≠ k := by
  induction l with
  | nil => intro p hp; cases hp
  | cons q rest ih =>
    intro p hp
    by_cases hq : q.1 = k
    · simp [alookup, hq] at h
    · rcases List.mem_cons.mp hp with rfl | hp2
      · exact hq
      · exact ih (by simpa [alookup, hq] using h) p hp2

theorem alookup_mem_distinct {β : Type} (l : List (String × β)) (p : String × β)
    (nd : (l.map Prod.fst).Nodup) (hp : p ∈ l) : alookup l p.1 = some p.2 := by
  induction l with
  | nil => cases hp
  | cons q rest ih =>
    rcases List.mem_cons.mp hp with rfl | hp2
    · simp [alookup]
    · simp only [List.map_cons, List.nodup_cons] at nd
      have hne : q.1 ≠ p.1 := by
        intro he
        have hm : p.1 ∈ rest.map Prod.fst := List.mem_map.mpr ⟨p, hp2, rfl⟩
        exact nd.1 (he ▸ hm)
      simp only [alookup, if_neg hne]
      exact ih nd.2 hp2

theorem mem_aset {β : Type} (l : List (String × β)) (k : String) (v : β) (p : String × β)
    (h : p ∈ aset l k v) : p ∈ l ∨ p = (k, v) := by
  induction l with
  | nil =>
    simp [aset] at h
    exact Or.inr h
  | cons q rest ih =>
    by_cases hq : q.1 = k
    · simp only [aset, if_pos hq] at h
      rcases List.mem_cons.mp h with rfl | hp
      · exact Or.inr rfl
      · exact Or.inl (List.mem_cons_of_mem _ hp)
    · simp only [aset, if_neg hq] at h
      rcases List.mem_cons.mp h with rfl | hp
      · exact Or.inl (List.mem_cons_self _ _)
      · rcases ih hp with h1 | h2
        · exact Or.inl (List.mem_cons_of_mem _ h1)
        · exact Or.inr h2

theorem mem_aset_self {β : Type} (l : List (String × β)) (k : String) (v : β) :
    (k, v) ∈ aset l k v := by
  induction l with
  | nil => simp [aset]
  | cons q rest ih =>
    by_cases hq : q.1 = k
    · simp [aset, hq]
    · simp only [aset, if_neg hq]
      exact List.mem_cons_of_mem _ ih

theorem mem_aset_of_ne {β : Type} (l : List (String × β)) (k : String) (v : β) (p : String × β)
    (hp : p ∈ l) (hne : p.1 ≠ k) : p ∈ aset l k v := by
  induction l with
  | nil => cases hp
  | cons q rest ih =>
    rcases List.mem_cons.mp hp with rfl | hmem
    · simp only [aset, if_neg hne]
      exact List.mem_cons_self _ _
    · by_cases hq : q.1 = k
      · simp only [aset, if_pos hq]
        exact List.mem_cons_of_mem _ hmem
      · simp only [aset, if_neg hq]
        exact List.mem_cons_of_mem _ (ih hmem)

theorem mapKeys_aset {β : Type} (l : List (String × β)) (k : String) (v w : β)
    (h : alookup l k = some w) : (aset l k v).map Prod.fst = l.map Prod.fst := by
  induction l with
  | nil => simp [alookup] at h
  | cons q rest ih =>
    by_cases hq : q.1 = k
    · simp [aset, hq]
    · simp only [alookup, if_neg hq] at h
      simp [aset, hq, ih h]

theorem kevinKey_boost (g : Finding) : kevinKey (kevinBoost g) = kevinKey g := by
  unfold kevinBoost kevinKey
  split <;> rfl

theorem mem_kevinFilterBoost (l : List Finding) (f : Finding) (h : f ∈ kevinFilterBoost l) :
    ∃ g ∈ l, ¬(g.confidence < 1 / 2 ∧ g.sources.length < 2) ∧ f = kevinBoost g := by
  induction l with
  | nil => simp [kevinFilterBoost] at h
  | cons g rest ih =>
    by_cases hg : g.confidence < 1 / 2 ∧ g.sources.length < 2
    · rw [kevinFilterBoost, if_pos hg] at h
      obtain ⟨g2, hm, hh⟩ := ih h
      exact ⟨g2, List.mem_cons_of_mem _ hm, hh⟩
    · rw [kevinFilterBoost, if_neg hg] at h
      rcases List.mem_cons.mp h with rfl | h2
      · exact ⟨g, List.mem_cons_self _ _, hg, rfl⟩
      · obtain ⟨g2, hm, hh⟩ := ih h2
        exact ⟨g2, List.mem_cons_of_mem _ hm, hh⟩

theorem kevinBoost_mem_filterBoost (l : List Finding) (g : Finding) (hg : g ∈ l)
    (hkeep : ¬(g.confidence < 1 / 2 ∧ g.sources.length < 2)) :
    kevinBoost g ∈ kevinFilterBoost l := by
  induction l with
  | nil => cases hg
  | cons f rest ih =>
    rcases List.mem_cons.mp hg with rfl | hmem
    · rw [kevinFilterBoost, if_neg hkeep]
      exact List.mem_cons_self _ _
    · by_cases hf : f.confidence < 1 / 2 ∧ f.sources.length < 2
      · rw [kevinFilterBoost, if_pos hf]
        exact ih hmem
      · rw [kevinFilterBoost, if_neg hf]
        exact List.mem_cons_of_mem _ (ih hmem)

theorem mem_of_alookup {β : Type} (l : List (String × β)) (k : String) (v : β)
    (h : alookup l k = some v) : (k, v) ∈ l := by
  induction l with
  | nil => simp [alookup] at h
  | cons q rest ih =>
    by_cases hq : q.1 = k
    · simp only [alookup, if_pos hq] at h
      have hqe : q = (k, v) := by
        cases q
        simp only [Prod.mk.injEq]
        exact ⟨hq, Option.some.inj h⟩
      exact hqe ▸ List.mem_cons_self _ _
    · simp only [alookup, if_neg hq] at h
      exact List.mem_cons_of_mem _ (ih h)

theorem kevinDedupStep_mem (acc : List (String × Finding)) (f : Finding) (p : String × Finding)
    (h : p ∈ kevinDedupStep acc f) : p ∈ acc ∨ p = (kevinKey f, f) := by
  unfold kevinDedupStep at h
  cases hC : alookup acc (kevinKey f) with
  | none =>
    rw [hC] at h
    dsimp only at h
    rcases List.mem_append.mp h with h1 | h2
    · exact Or.inl h1
    · exact Or.inr (List.mem_singleton.mp h2)
  | some g0 =>
    rw [hC] at h
    dsimp only at h
    split_ifs at h with hlt
    · exact mem_aset _ _ _ _ h
    · exact Or.inl h

theorem kevinDedupStep_nodup (acc : List (String × Finding)) (f : Finding)
    (nd : (acc.map Prod.fst).Nodup) : ((kevinDedupStep acc f).map Prod.fst).Nodup := by
  unfold kevinDedupStep
  cases hC : alookup acc (kevinKey f) with
  | none =>
    dsimp only
    have hnotin : kevinKey f ∉ acc.map Prod.fst := by
      intro hmem
      obtain ⟨p, hp, hpk⟩ := List.mem_map.mp hmem
      exact alookup_none_forall acc _ hC p hp hpk
    rw [List.map_append]
    simp [List.nodup_append, nd, hnotin]
  | some g0 =>
    dsimp only
    split_ifs with hlt
    · rw [mapKeys_aset acc _ _ _ hC]
      exact nd
    · exact nd

theorem foldl_dedup_mem (l : List Finding) :
    ∀ (acc : List (String × Finding)) (p : String × Finding),
      p ∈ l.foldl kevinDedupStep acc → p ∈ acc ∨ (p.2 ∈ l ∧ p.1 = kevinKey p.2) := by
  induction l with
  | nil => intro acc p h; exact Or.inl h
  | cons f rest ih =>
    intro acc p h
    rcases ih (kevinDedupStep acc f) p h with h2 | ⟨hm, hk⟩
    · rcases kevinDedupStep_mem acc f p h2 with h3 | rfl
      · exact Or.inl h3
      · exact Or.inr ⟨List.mem_cons_self _ _, rfl⟩
    · exact Or.inr ⟨List.mem_cons_of_mem _ hm, hk⟩

theorem foldl_dedup_nodup (l : List Finding) :
    ∀ acc, ((acc.map Prod.fst).Nodup) → ((l.foldl kevinDedupStep acc).map Prod.fst).Nodup := by
  induction l with
  | nil => exact fun acc h => h
  | cons f rest ih =>
    intro acc h
    exact ih _ (kevinDedupStep_nodup acc f h)

theorem foldl_dedup_preserve (l : List Finding) :
    ∀ (acc : List (String × Finding)), ((acc.map Prod.fst).Nodup) →
      ∀ (k : String) (c : ℚ), (∃ p ∈ acc, p.1 = k ∧ c ≤ p.2.confidence) →
      ∃ p ∈ l.foldl kevinDedupStep acc, p.1 = k ∧ c ≤ p.2.confidence := by
  induction l with
  | nil => intro acc _ k c h; exact h
  | cons f rest ih =>
    intro acc hnd k c h
    apply ih _ (kevinDedupStep_nodup acc f hnd)
    obtain ⟨p, hp, hpk, hpc⟩ := h
    unfold kevinDedupStep
    cases hC : alookup acc (kevinKey f) with
    | none =>
      dsimp only
      exact ⟨p, List.mem_append_left _ hp, hpk, hpc⟩
    | some g0 =>
      dsimp only
      split_ifs with hlt
      · by_cases hkey : p.1 = kevinKey f
        · have hl : alookup acc p.1 = some p.2 := alookup_mem_distinct acc p hnd hp
          rw [hkey, hC] at hl
          have hg0 : g0 = p.2 := by injection hl
          refine ⟨(kevinKey f, f), mem_aset_self _ _ _, ?_, ?_⟩
          · rw [← hkey]; exact hpk
          · have : g0.confidence < f.confidence := hlt
            rw [hg0] at this
            linarith
        · exact ⟨p, mem_aset_of_ne _ _ _ _ hp hkey, hpk, hpc⟩
      · exact ⟨p, hp, hpk, hpc⟩

theorem foldl_dedup_represents (l : List Finding) :
    ∀ (acc : List (String × Finding)), ((acc.map Prod.fst).Nodup) →
      ∀ x ∈ l, ∃ p ∈ l.foldl kevinDedupStep acc, p.1 = kevinKey x ∧ x.confidence ≤ p.2.confidence := by
  induction l with
  | nil => intro acc _ x hx; cases hx
  | cons f rest ih =>
    intro acc hnd x hx
    rcases List.mem_cons.mp hx with rfl | hmem
    · apply foldl_dedup_preserve rest _ (kevinDedupStep_nodup acc x hnd)
      unfold kevinDedupStep
      cases hC : alookup acc (kevinKey x) with
      | none =>
        dsimp only
        exact ⟨(kevinKey x, x), List.mem_append_right _ (List.mem_singleton.mpr rfl), rfl, le_refl _⟩
      | some g0 =>
        dsimp only
        split_ifs with hlt
        · exact ⟨(kevinKey x, x), mem_aset_self _ _ _, rfl, le_refl _⟩
        · exact ⟨(kevinKey x, g0), mem_of_alookup acc _ _ hC, rfl, le_of_not_lt hlt⟩
    · exact ih _ (kevinDedupStep_nodup acc f hnd) x hmem

/-- C6 amended: the kevin pass (deterministic path) (a) removes exactly the
Findings below the confidence threshold that also have fewer than two sources,
(b) multiplies the confidence of every surviving Finding with three or more
sources by 1.2 capped at 1.0 (`kevinBoost`), and (c) deduplicates the
survivors keeping a highest-confidence instance per key — but the dedup key
is `(title, tags in their given order)`, not `(title, sorted tags)` as the
spec claims (the LLM-enhanced variant is the one that sorts). -/
theorem kevinPass_amended (context : OsintContext) (l : List Finding) :
    (∀ f ∈ kevinPass context l,
        ∃ g ∈ l, ¬(g.confidence < 1 / 2 ∧ g.sources.length < 2) ∧ f = kevinBoost g)
    ∧ (kevinPass context l).Pairwise (fun a b => kevinKey a ≠ kevinKey b)
    ∧ (∀ g ∈ l, ¬(g.confidence < 1 / 2 ∧ g.sources.length < 2) →
        ∃ f ∈ kevinPass context l, kevinKey f = kevinKey g ∧
          (kevinBoost g).confidence ≤ f.confidence) := by
  refine ⟨?_, ?_, ?_⟩
  · intro f hf
    obtain ⟨p, hp, hps⟩ := List.mem_map.mp hf
    rcases foldl_dedup_mem (kevinFilterBoost l) [] p hp with h0 | ⟨hm, _⟩
    · cases h0
    · exact mem_kevinFilterBoost l f (hps ▸ hm)
  · have hnd : (((kevinFilterBoost l).foldl kevinDedupStep []).map Prod.fst).Nodup :=
      foldl_dedup_nodup (kevinFilterBoost l) [] (by simp)
    have hkc : ∀ p ∈ (kevinFilterBoost l).foldl kevinDedupStep [], p.1 = kevinKey p.2 := by
      intro p hp
      rcases foldl_dedup_mem (kevinFilterBoost l) [] p hp with h0 | ⟨_, hk⟩
      · cases h0
      · exact hk
    have hpw : ((kevinFilterBoost l).foldl kevinDedupStep []).Pairwise
        (fun p q => p.1 ≠ q.1) := (List.pairwise_map.mp hnd)
    have hpw2 : ((kevinFilterBoost l).foldl kevinDedupStep []).Pairwise
        (fun p q => kevinKey p.2 ≠ kevinKey q.2) := by
      refine List.Pairwise.imp_of_mem ?_ hpw
      intro a b ha hb hne
      rw [← hkc a ha, ← hkc b hb]
      exact hne
    exact List.pairwise_map.mpr hpw2
  · intro g hg hkeep
    have hmem : kevinBoost g ∈ kevinFilterBoost l := kevinBoost_mem_filterBoost l g hg hkeep
    obtain ⟨p, hp, hpk, hpc⟩ :=
      foldl_dedup_represents (kevinFilterBoost l) [] (by simp) (kevinBoost g) hmem
    refine ⟨p.2, List.mem_map.mpr ⟨p, hp, rfl⟩, ?_, hpc⟩
    have hkc : p.1 = kevinKey p.2 := by
      rcases foldl_dedup_mem (kevinFilterBoost l) [] p hp with h0 | ⟨_, hk⟩
      · cases h0
      · exact hk
    rw [← hkc, hpk, kevinKey_boost]

/-- Witness for C6 amended: a surviving Finding is represented in the output. -/
theorem kevinPass_amended_witness :
    ∃ f ∈ kevinPass emptyContext [kevinDupB], kevinKey f = kevinKey kevinDupB ∧
      (kevinBoost kevinDupB).confidence ≤ f.confidence :=
  (kevinPass_amended emptyContext [kevinDupB]).2.2 kevinDupB (List.mem_singleton.mpr rfl)
    (by norm_num [kevinDupB])

theorem perm_insDesc {α β : Type} [LinearOrder β] (score : α → β) (x : α) (l : List α) :
    (insDesc score x l).Perm (x :: l) := by
  induction l with
  | nil => exact List.Perm.refl _
  | cons y ys ih =>
    by_cases h : score x ≤ score y
    · rw [insDesc, if_pos h]
      exact (ih.cons y).trans (List.Perm.swap x y ys)
    · rw [insDesc, if_neg h]

theorem sorted_insDesc {α β : Type} [LinearOrder β] (score : α → β) (x : α) (l : List α)
    (h : l.Pairwise (fun a b => score b ≤ score a)) :
    (insDesc score x l).Pairwise (fun a b => score b ≤ score a) := by
  induction l with
  | nil => simp [insDesc]
  | cons y ys ih =>
    rcases List.pairwise_cons.mp h with ⟨hy, hys⟩
    by_cases hx : score x ≤ score y
    · rw [insDesc, if_pos hx]
      refine List.pairwise_cons.mpr ⟨?_, ih hys⟩
      intro z hz
      rcases List.mem_cons.mp ((perm_insDesc score x ys).mem_iff.mp hz) with rfl | hz2
      · exact hx
      · exact hy z hz2
    · rw [insDesc, if_neg hx]
      refine List.pairwise_cons.mpr ⟨?_, h⟩
      intro z hz
      rcases List.mem_cons.mp hz with rfl | hz2
      · exact le_of_lt (lt_of_not_le hx)
      · exact le_trans (hy z hz2) (le_of_lt (lt_of_not_le hx))

theorem perm_foldl_insDesc {α β : Type} [LinearOrder β] (score : α → β) (l acc : List α) :
    (l.foldl (fun acc x => insDesc score x acc) acc).Perm (l ++ acc) := by
  induction l generalizing acc with
  | nil => simp
  | cons x xs ih =>
    have h1 := ih (insDesc score x acc)
    have h2 : (xs ++ insDesc score x acc).Perm (xs ++ (x :: acc)) :=
      List.Perm.append_left xs (perm_insDesc score x acc)
    have h3 : (xs ++ (x :: acc)).Perm (x :: (xs ++ acc)) := List.perm_middle
    exact ((h1.trans h2).trans h3).trans (List.Perm.refl _)

theorem perm_stableSortDesc {α β : Type} [LinearOrder β] (score : α → β) (l : List α) :
    (stableSortDesc score l).Perm l := by
  have h := perm_foldl_insDesc score l []
  simpa [stableSortDesc] using h

theorem sorted_stableSortDesc {α β : Type} [LinearOrder β] (score : α → β) (l : List α) :
    (stableSortDesc score l).Pairwise (fun a b => score b ≤ score a) := by
  unfold stableSortDesc
  have key : ∀ (xs : List α) (acc : List α),
      acc.Pairwise (fun a b => score b ≤ score a) →
      (xs.foldl (fun acc x => insDesc score x acc) acc).Pairwise (fun a b => score b ≤ score a) := by
    intro xs
    induction xs with
    | nil => exact fun acc h => h
    | cons x rest ih => exact fun acc h => ih _ (sorted_insDesc score x acc h)
  exact key l [] (by simp)

/-- Counterexample to C7: with one verified Finding of confidence 0.99 and an
empty evidence bundle (synthesis confidence 0.5), the deterministic pinko pass
returns the verified Finding first — the appended summary Finding is NOT
placed first; the whole list (summary included) is simply sorted by priority
score. -/
theorem pinkoPass_summary_not_first :
    ((pinkoPass "2025-01-01" emptyContext [pinkoBig]).map Finding.title).head?
        = some "Dominant finding"
    ∧ (synthesisFinding "2025-01-01" emptyContext [pinkoBig]).title
        = "Overall Automation Opportunity Assessment"
    ∧ "Dominant finding" ≠ "Overall Automation Opportunity Assessment" := by
  refine ⟨?_, rfl, by decide⟩
  have hOpp : automationOpportunities [pinkoBig] = 0 := by decide
  have hGrow : hasGrowthSignals [pinkoBig] = false := by decide
  have hMulti : hasMultipleJobs emptyContext = false := by decide
  have hRep : hasRepetitiveTasks [pinkoBig] = false := by decide
  have hTech : hasTechStack emptyContext = false := by decide
  have hProc : hasProcurement emptyContext = false := by decide
  have hfacts : automationFactorsSum emptyContext [pinkoBig] = 0 := by
    simp [automationFactorsSum, factorCount, hOpp, hGrow, hMulti, hRep, hTech, hProc]
  have hfinal : automationFinalScore emptyContext [pinkoBig] = 0 := by
    simp [automationFinalScore, hfacts]
  have hdp : automationDataPoints emptyContext [pinkoBig] = 0 := by decide
  have hconf : (analyzeAutomationPotential emptyContext [pinkoBig]).confidence = 1 / 2 := by
    simp [analyzeAutomationPotential, hdp, min_def]
    norm_num
  have hlevel : (analyzeAutomationPotential emptyContext [pinkoBig]).level = "low-potential" := by
    simp [analyzeAutomationPotential, hfinal]
    norm_num
  have hps : priorityScore (synthesisFinding "2025-01-01" emptyContext [pinkoBig]) = 1 / 2 := by
    simp [priorityScore, synthesisFinding, hconf, hlevel, List.contains]
  have hpb : priorityScore pinkoBig = 99 / 100 := by
    simp [priorityScore, pinkoBig]
  have hcond : priorityScore (synthesisFinding "2025-01-01" emptyContext [pinkoBig])
      ≤ priorityScore pinkoBig := by
    rw [hps, hpb]; norm_num
  have hsort : pinkoPass "2025-01-01" emptyContext [pinkoBig]
      = [pinkoBig, synthesisFinding "2025-01-01" emptyContext [pinkoBig]] := by
    simp only [pinkoPass, stableSortDesc, List.cons_append, List.nil_append, List.foldl_cons,
      List.foldl_nil, insDesc]
    rw [if_pos hcond]
  rw [hsort]
  simp [pinkoBig]

/-- C7 amended: the deterministic pinko pass returns the verified Findings
plus the appended summary Finding, as one list sorted in descending order of
`confidence × impact-multiplier`; the summary is first only when its priority
score is maximal (the LLM-enhanced variant is the one that forces the summary
first). -/
theorem pinkoPass_amended (today : String) (context : OsintContext) (verified : List Finding) :
    (pinkoPass today context verified).Pairwise
        (fun a b => priorityScore b ≤ priorityScore a)
    ∧ (pinkoPass today context verified).Perm
        (verified ++ [synthesisFinding today context verified]) :=
  ⟨sorted_stableSortDesc _ _, perm_stableSortDesc _ _⟩

/-- C9: cache backend errors never propagate — a failing read (including a
failing `JSON.parse` of the stored string) behaves as a miss and a failing
write leaves the store untouched and returns normally, while a successful
read still returns the cached value. -/
theorem cache_failures_never_propagate (V σ : Type) (parse : String → Except Unit V)
    (s : σ) (str : String) (v : V) :
    cacheServiceGet true (.error ()) parse = (none : Option V)
    ∧ cacheServiceGet true (.ok (some (.inl str))) (fun _ => .error ()) = (none : Option V)
    ∧ cacheServiceSet true s (.error ()) = s
    ∧ cacheServiceGet true (.ok (some (.inr v))) parse = some v
    ∧ cacheServiceGet false (.ok (some (.inr v))) parse = none := by
  refine ⟨rfl, rfl, rfl, rfl, rfl⟩

/-- C4 (refuted by the code): with two candidate companies (Acme: 2 postings,
Beta LLC: 1 posting) and deep research failing for Beta LLC only, the whole
batch aborts with the propagated error — no result, no partial
companies-analyzed count (the result type has no such field at all). -/
theorem searchOpportunities_one_failure_aborts_batch :
    searchOpportunities c4deepResearch c4jobs (fun _ => "acme.example") true c4request []
      = .error EngineErr.external := by
  rfl

/-- C10: the opportunity-search cache key is derived only from
{keywords, location} (no tenant identity), while the cached value embeds the
first requester's clientId as `jobId`.  Hence after any successful request by
tenant 1, a second request with equal keywords and location — any tenant, any
collaborator behaviour — returns tenant 1's stored result verbatim; and when
tenant 1's request was a cache miss, the returned jobId is tenant 1's
clientId. -/
theorem search_cache_leak
    (dr dr2 : ResearchRequest → Except EngineErr DeepResearchResult)
    (jobs jobs2 : List JobPosting) (host host2 : String → String)
    (req1 req2 : ResearchRequest) (c0 c1 : List (String × SearchResult)) (r1 : SearchResult)
    (hkw : req2.keywords = req1.keywords) (hloc : req2.location = req1.location)
    (h1 : searchOpportunities dr jobs host true req1 c0 = .ok (r1, c1)) :
    searchOpportunities dr2 jobs2 host2 true req2 c1 = .ok (r1, c1)
    ∧ (c0 = [] → r1.jobId = jsOrDefault req1.clientId "anonymous") := by
  unfold searchOpportunities at h1 ⊢
  rw [hkw, hloc]
  cases hk : req1.keywords with
  | none => rw [hk] at h1; simp at h1
  | some kw =>
    rw [hk] at h1
    dsimp only at h1 ⊢
    by_cases hkw0 : kw = ""
    · rw [if_pos hkw0] at h1; simp at h1
    · rw [if_neg hkw0] at h1 ⊢
      simp only [if_true] at h1 ⊢
      cases hc : alookup c0
          (cacheGenerateKey "JOB_SEARCH" ⟨[("keywords", some kw), ("location", req1.location)]⟩) with
      | some r =>
        rw [hc] at h1
        dsimp only at h1
        have hr : r = r1 ∧ c0 = c1 := by
          have := h1
          simp only [Except.ok.injEq, Prod.mk.injEq] at this
          exact ⟨this.1, this.2⟩
        obtain ⟨rfl, rfl⟩ := hr
        constructor
        · rw [hc]
        · intro h0
          rw [h0] at hc
          simp [alookup] at hc
      | none =>
        rw [hc] at h1
        dsimp only at h1
        cases hf : searchAnalyzeCompanies dr host req1.notes (topCompaniesOf jobs) with
        | error e =>
          rw [hf] at h1
          exact Except.noConfusion h1
        | ok findings =>
          rw [hf] at h1
          injection h1 with h2
          injection h2 with hr1 hc1
          constructor
          · rw [← hc1, alookup_aset_self]
            dsimp only
            rw [← hr1]
          · intro _
            rw [← hr1]

/-- Witness for C10: tenant-a populates the cache; tenant-b's identical
keywords/location query returns tenant-a's stored result, whose jobId is
"tenant-a". -/
theorem search_cache_leak_witness :
    searchOpportunities c10deepResearch c10jobs (fun _ => "") true c10request2 c10cache
        = .ok (c10result, c10cache)
    ∧ c10result.jobId = "tenant-a" := by
  have h1 : searchOpportunities c10deepResearch c10jobs (fun _ => "") true c10request1 []
      = .ok (c10result, c10cache) := by rfl
  have h := search_cache_leak c10deepResearch c10deepResearch c10jobs c10jobs
    (fun _ => "") (fun _ => "") c10request1 c10request2 [] c10cache c10result rfl rfl h1
  refine ⟨h.1, ?_⟩
  rw [h.2 rfl]
  rfl

/-- Counterexample to C5: the same two key parameters in a different property
order serialize differently under `JSON.stringify`, so `generateKey` yields a
different cache key — key derivation is NOT insensitive to object key order. -/
theorem generateKey_key_order_counterexample :
    cacheGenerateKey "JOB_SEARCH" c5params1 ≠ cacheGenerateKey "JOB_SEARCH" c5params2 := by
  decide

theorem hexChar_mem (n : Nat) : hexChar n ∈ hexDigitList := by
  by_cases h : n < 16
  · unfold hexChar
    interval_cases n <;> decide
  · unfold hexChar
    rw [List.getD_eq_default]
    · decide
    · simp [hexDigitList]
      omega

theorem sha256HexChars_mem (msg : List Nat) : ∀ c ∈ sha256HexChars msg, c ∈ hexDigitList := by
  intro c hc
  unfold sha256HexChars at hc
  simp only [List.mem_flatten, List.mem_map] at hc
  obtain ⟨l, ⟨b, _, rfl⟩, hcl⟩ := hc
  unfold byteToHex at hcl
  rcases List.mem_cons.mp hcl with rfl | hcl2
  · exact hexChar_mem _
  · rcases List.mem_cons.mp hcl2 with rfl | hcl3
    · exact hexChar_mem _
    · cases hcl3

/-- C5 amended: key derivation is a pure function of the serialized form of
(namespace, keyParams): any two keyParams with the same `JSON.stringify`
output give the same `cache:namespace:digest` key, and the 16-character
digest consists only of lowercase hex characters — in particular it never
contains `@` or `#`.  Insensitivity to object key order does NOT hold (see
the counterexample): `JSON.stringify` preserves property order and no
normalization is applied. -/
theorem generateKey_amended (ns : String) (d1 d2 : KeyParams)
    (h : jsonStringify d1 = jsonStringify d2) :
    cacheGenerateKey ns d1 = cacheGenerateKey ns d2
    ∧ ∀ c ∈ (sha256HexChars (strBytes (jsonStringify d1))).take 16,
        c ∈ hexDigitList ∧ c ≠ '@' ∧ c ≠ '#' := by
  constructor
  · unfold cacheGenerateKey generateKey
    rw [h]
  · intro c hc
    have hmem : c ∈ sha256HexChars (strBytes (jsonStringify d1)) :=
      List.take_subset _ _ hc
    have hhex : c ∈ hexDigitList := sha256HexChars_mem _ c hmem
    have hforall : ∀ x ∈ hexDigitList, x ≠ '@' ∧ x ≠ '#' := by decide
    exact ⟨hhex, hforall c hhex⟩

/-- Witness for C5 amended: two syntactically distinct but equal keyParams
values produce the same key, and the digest of the example from the spec is
hex-only. -/
theorem generateKey_amended_witness :
    cacheGenerateKey "JOB_SEARCH" c5params1 = cacheGenerateKey "JOB_SEARCH" c5params1b
    ∧ ∀ c ∈ (sha256HexChars (strBytes (jsonStringify c5params1))).take 16,
        c ∈ hexDigitList ∧ c ≠ '@' ∧ c ≠ '#' :=
  generateKey_amended "JOB_SEARCH" c5params1 c5params1b rfl
